import Mathlib

/-!
# lmb.pad: the task form and its task store

A shallow embedding of `main.go`: the task record, the store operation
`createTask`, the form `model` with `initialModel` and `model.Update`, followed by
the properties of focus navigation, cursor-mode cycling, quitting and appending.

Conventions of the embedding.

* Go `int` values (`focusIndex`, `cursor.Mode`, `CharLimit`) are `Int`.  The
  arithmetic of `Update` is `x + 1` and `x - 1` on values that lie between `-1`
  and `len(inputs) + 2`, so 64-bit wrap-around is never reached and is left out.
* The path `db/tasks.json` is the only piece of the file system the program
  touches.  Its state says whether the directory `db` exists and accepts new
  entries, whether the file exists, what it holds, and whether it may be read
  and written; every operating-system call fails where that state makes the
  real call fail.  Code that can reach the file takes the state and returns it.
* `encoding/json`, `textinput.Model.Update` and the other library calls are not
  part of the repository.  The JSON codec and the text-field edit function are
  parameters of the definitions that call them; the small library setters
  (`Focus`, `Blur`, `SetMode`) are modelled by their effect on the fields used.
-/

namespace LmbPad

/-! ## Task records -/

/-- Value of Go's `time.Time` in UTC without a monotonic clock reading: `ext` is the
number of seconds since January 1 of year 1, 00:00:00, and `wall` the
nanoseconds within the second.  The zero value is `wall = 0`, `ext = 0`. -/
structure Time where
  wall : Nat := 0
  ext : Int := 0
  deriving DecidableEq, Repr

/-- Record `Task` of `main.go`.  A slice field is `none` for the nil slice. -/
structure Task where
  Title : String := ""
  Description : String := ""
  Urgency : String := ""
  Status : String := ""
  AssignedBy : String := ""
  Attachments : Option (List String) := none
  Comments : Option (List String) := none
  TimeStamp : Time := {}
  StartTime : Time := {}
  EndTime : Time := {}
  Due : Time := {}
  deriving DecidableEq, Repr

/-- Value of type `[]*Task`: a nil pointer element is `none`. -/
abbrev Tasks := List (Option Task)

/-! ## The task file and the operating-system calls on it -/

/-- Errors of the operating system and of the JSON codec; each of them, when
checked, ends in `log.Fatal`. -/
inductive Error where
  | notExist
  | permission
  | decode (what : String)
  | encode (what : String)
  deriving DecidableEq, Repr

/-- State of the path `db/tasks.json`.  `dir` says that the directory `db` exists,
`dirWritable` that entries may be created in it, `file` holds the contents of
`tasks.json` when that file exists, `readable` and `writable` are the
permissions of the file for the user running the program. -/
structure FS where
  file : Option String
  dir : Bool := true
  dirWritable : Bool := true
  readable : Bool := true
  writable : Bool := true
  deriving DecidableEq, Repr

/-- The contents of `db/tasks.json`, `none` when the file is absent; below a
missing directory every file is absent. -/
def FS.contents (fs : FS) : Option String :=
  if fs.dir then fs.file else none

/-- Call `os.Stat("db/tasks.json")`, reduced to its error result. -/
def osStat (fs : FS) : Option Error :=
  match fs.contents with
  | none => some Error.notExist
  | some _ => none

/-- Predicate `os.IsNotExist` on the error result of a call. -/
def osIsNotExist (err : Option Error) : Bool :=
  match err with
  | some Error.notExist => true
  | _ => false

/-- Call `os.Create("db/tasks.json")`, which opens the path for reading and
writing, creating or truncating the file.  It fails when the directory is
missing, when the file is absent and the directory takes no new entry, and
when the file exists and may not be read and written.  On success the file
exists and is empty; a new file is readable and writable. -/
def osCreate (fs : FS) : Option Error × FS :=
  if fs.dir then
    match fs.file with
    | none =>
      if fs.dirWritable then
        (none, { fs with file := some "", readable := true, writable := true })
      else (some Error.permission, fs)
    | some _ =>
      if fs.readable ∧ fs.writable then (none, { fs with file := some "" })
      else (some Error.permission, fs)
  else (some Error.notExist, fs)

/-- Call `os.ReadFile("db/tasks.json")`: it fails when the file is absent and when
it may not be read. -/
def osReadFile (fs : FS) : Except Error String :=
  match fs.contents with
  | none => Except.error Error.notExist
  | some b => if fs.readable then Except.ok b else Except.error Error.permission

/-- Call `os.WriteFile("db/tasks.json", data, 0644)`, which opens the path for
writing, creating or truncating the file.  It fails when the directory is
missing, when the file is absent and the directory takes no new entry, and
when the file exists and may not be written.  On success the file holds
`data`. -/
def osWriteFile (fs : FS) (data : String) : Option Error × FS :=
  if fs.dir then
    match fs.file with
    | none =>
      if fs.dirWritable then
        (none, { fs with file := some data, readable := true, writable := true })
      else (some Error.permission, fs)
    | some _ =>
      if fs.writable then (none, { fs with file := some data })
      else (some Error.permission, fs)
  else (some Error.notExist, fs)

/-- The file operations of `createTask` can all succeed: an existing file may be
read and written, an absent one may be created. -/
def FS.usable (fs : FS) : Bool :=
  match fs.contents with
  | none => fs.dir && fs.dirWritable
  | some _ => fs.readable && fs.writable

/-- The two calls of `encoding/json` that `createTask` makes, at type `[]*Task`.
`Unmarshal` is applied to a nil slice variable, so its result is the decoded
slice. -/
structure Codec where
  Marshal : Tasks → Except Error String
  Unmarshal : String → Except Error Tasks

/-- How a call of `createTask` ends: it returns, or `log.Fatal` stops the
process. -/
inductive Outcome where
  | returned
  | fatal (err : Error)
  deriving DecidableEq, Repr

/-- Function `createTask` of `main.go`, lines 42 to 68, with the state of the path
passed in and out.  The error result of `os.Create` is dropped, as on line
44. -/
def createTask (json : Codec) (task : Option Task) (fs : FS) : Outcome × FS :=
  -- if _, err := os.Stat(...); os.IsNotExist(err) { os.Create(...) }
  let fs1 := if osIsNotExist (osStat fs) then (osCreate fs).2 else fs
  -- b, err := os.ReadFile(...)
  match osReadFile fs1 with
  | Except.error err => (Outcome.fatal err, fs1)
  | Except.ok b =>
    -- var tasks []*Task; if len(b) != 0 { err = json.Unmarshal(b, &tasks) }
    match (if b.length ≠ 0 then json.Unmarshal b else Except.ok []) with
    | Except.error err => (Outcome.fatal err, fs1)
    | Except.ok tasks =>
      -- tasks = append(tasks, task); data, err := json.Marshal(tasks)
      match json.Marshal (tasks ++ [task]) with
      | Except.error err => (Outcome.fatal err, fs1)
      | Except.ok data =>
        -- err = os.WriteFile(...)
        match osWriteFile fs1 data with
        | (some err, fs2) => (Outcome.fatal err, fs2)
        | (none, fs2) => (Outcome.returned, fs2)

/-- The collection a task file stands for: an absent or empty file is the empty
collection, any other contents are decoded as a JSON array. -/
def decodeFile (json : Codec) (fs : FS) : Except Error Tasks :=
  match fs.contents with
  | none => Except.ok []
  | some b => if b.length ≠ 0 then json.Unmarshal b else Except.ok []

/-! ## Styles, commands and text fields -/

/-- A `lipgloss.Style` as far as the form sets it: no attribute, or a foreground
colour. -/
inductive Style where
  | plain
  | foreground (color : String)
  deriving DecidableEq, Repr

/-- Style `focusedStyle` of `main.go`. -/
def focusedStyle : Style := Style.foreground "205"

/-- Style `blurredStyle` of `main.go`. -/
def blurredStyle : Style := Style.foreground "240"

/-- Style `cursorStyle` of `main.go`, a copy of `focusedStyle`. -/
def cursorStyle : Style := focusedStyle

/-- Style `noStyle` of `main.go`. -/
def noStyle : Style := Style.plain

/-- A `tea.Cmd` value: nil, `tea.Quit`, the cursor blink command, a batch, or a
command produced by the text-field library. -/
inductive Cmd where
  | nil
  | Quit
  | Blink
  | Batch (cmds : List Cmd)
  | Other (tag : Nat)

/-- Test for the command `tea.Quit`. -/
def Cmd.isQuit : Cmd → Bool
  | Cmd.Quit => true
  | _ => false

/-- A `tea.Msg`: a key press, named by `msg.String()`, or some other message. -/
inductive Msg where
  | KeyMsg (key : String)
  | Other (tag : Nat)
  deriving DecidableEq, Repr

/-- Constant `cursor.CursorBlink`. -/
def CursorBlink : Int := 0

/-- Constant `cursor.CursorStatic`. -/
def CursorStatic : Int := 1

/-- Constant `cursor.CursorHide`. -/
def CursorHide : Int := 2

/-- The fields of `cursor.Model` that the form reads or writes. -/
structure Cursor where
  mode : Int := CursorBlink
  focus : Bool := false
  Blink : Bool := true
  Style : Style := Style.plain
  deriving DecidableEq, Repr

/-- The fields of `textinput.Model` that the form reads or writes. -/
structure TextInput where
  Prompt : String := "> "
  Placeholder : String := ""
  CharLimit : Int := 0
  value : String := ""
  focus : Bool := false
  PromptStyle : Style := Style.plain
  TextStyle : Style := Style.plain
  Cursor : Cursor := {}
  deriving DecidableEq, Repr

/-- Modelled from the spec: `cursor.Model.Focus` of the bubbles library is not
under `src/`.  The cursor becomes focused, it is shown unless the mode hides it,
and the blink command is returned in blink mode. -/
def Cursor.Focus (c : Cursor) : Cursor × Cmd :=
  ({ c with focus := true, Blink := decide (c.mode = CursorHide) },
    if c.mode = CursorBlink then Cmd.Blink else Cmd.nil)

/-- Modelled from the spec: `cursor.Model.Blur` of the bubbles library is not
under `src/`.  The cursor loses focus and is not shown. -/
def Cursor.Blur (c : Cursor) : Cursor :=
  { c with focus := false, Blink := true }

/-- Modelled from the spec: `cursor.Model.SetMode` of the bubbles library is not
under `src/`.  A mode outside the three known ones is ignored; otherwise the
caret is retargeted to the mode and the blink command is returned for blink
mode. -/
def Cursor.SetMode (c : Cursor) (mode : Int) : Cursor × Cmd :=
  if mode < CursorBlink ∨ mode > CursorHide then (c, Cmd.nil)
  else
    ({ c with mode := mode, Blink := decide (mode = CursorHide) || !c.focus },
      if mode = CursorBlink then Cmd.Blink else Cmd.nil)

/-- Modelled from the spec: `textinput.Model.Focus` of the bubbles library is not
under `src/`.  The field becomes the focused one and its cursor is focused. -/
def TextInput.Focus (t : TextInput) : TextInput × Cmd :=
  let r := t.Cursor.Focus
  ({ t with focus := true, Cursor := r.1 }, r.2)

/-- Modelled from the spec: `textinput.Model.Blur` of the bubbles library is not
under `src/`.  The field becomes blurred and so does its cursor. -/
def TextInput.Blur (t : TextInput) : TextInput :=
  { t with focus := false, Cursor := t.Cursor.Blur }

/-- Modelled from the spec: `textinput.New` of the bubbles library is not under
`src/`.  A fresh field is empty, blurred, unstyled, with a blinking cursor. -/
def TextInput.New : TextInput := {}

/-! ## The form -/

/-- Record `model` of `main.go`. -/
structure model where
  focusIndex : Int := 0
  inputs : List TextInput := []
  cursorMode : Int := CursorBlink
  deriving DecidableEq, Repr

/-- One pass of the loop body of `initialModel` (lines 98 to 129) for index `i`. -/
def initialInput (i : Nat) : TextInput :=
  let t := TextInput.New
  let t := { t with Cursor := { t.Cursor with Style := cursorStyle } }
  let t := { t with CharLimit := 32 }
  match i with
  | 0 =>
    let t := { t with Placeholder := "Title" }
    let t := t.Focus.1
    { t with PromptStyle := focusedStyle, TextStyle := focusedStyle }
  | 1 => { t with Placeholder := "Description", CharLimit := 64 }
  | 2 => { t with Placeholder := "Urgency", CharLimit := 64 }
  | 3 => { t with Placeholder := "Status", CharLimit := 64 }
  | 4 => { t with Placeholder := "Assigned By ( Email )", CharLimit := 64 }
  | 5 => { t with Placeholder := "Comments", CharLimit := 64 }
  | _ => t

/-- Function `initialModel` of `main.go`: six fields, the first one focused. -/
def initialModel : model :=
  { inputs := (List.range 6).map initialInput }

/-- The loop of lines 153 to 155: every field's cursor is set to `mode`; the
commands are collected in field order. -/
def setModeLoop (mode : Int) : List TextInput → List TextInput × List Cmd
  | [] => ([], [])
  | t :: ts =>
    let r := t.Cursor.SetMode mode
    let rest := setModeLoop mode ts
    ({ t with Cursor := r.1 } :: rest.1, r.2 :: rest.2)

/-- The loop of lines 182 to 193, entered at index `i` with the fields from `i`
on: the field at `focusIndex` is focused and styled, every other field is
blurred and unstyled; a blurred field leaves its command slot nil. -/
def focusLoop (focusIndex : Int) : Nat → List TextInput → List TextInput × List Cmd
  | _, [] => ([], [])
  | i, t :: ts =>
    let rest := focusLoop focusIndex (i + 1) ts
    if (i : Int) = focusIndex then
      let r := t.Focus
      ({ r.1 with PromptStyle := focusedStyle, TextStyle := focusedStyle } :: rest.1,
        r.2 :: rest.2)
    else
      ({ t.Blur with PromptStyle := noStyle, TextStyle := noStyle } :: rest.1,
        Cmd.nil :: rest.2)

/-- Method `model.updateInputs` of `main.go`: every field handles the message
with the library's `textinput.Model.Update`, here the parameter `tiUpdate`. -/
def model.updateInputs (tiUpdate : TextInput → Msg → TextInput × Cmd) (m : model)
    (msg : Msg) : model × Cmd :=
  ({ m with inputs := m.inputs.map fun t => (tiUpdate t msg).1 },
    Cmd.Batch (m.inputs.map fun t => (tiUpdate t msg).2))

/-- Method `model.Update` of `main.go`, lines 139 to 203.  The task file is passed
in and returned; no statement of the method reads or writes it. -/
def model.Update (tiUpdate : TextInput → Msg → TextInput × Cmd) (m : model)
    (msg : Msg) (fs : FS) : (model × Cmd) × FS :=
  match msg with
  | Msg.KeyMsg s =>
    if s = "ctrl+c" ∨ s = "esc" then
      ((m, Cmd.Quit), fs)
    else if s = "ctrl+r" then
      let mode := m.cursorMode + 1
      let mode := if mode > CursorHide then CursorBlink else mode
      let r := setModeLoop mode m.inputs
      (({ m with cursorMode := mode, inputs := r.1 }, Cmd.Batch r.2), fs)
    else if s = "tab" ∨ s = "shift+tab" ∨ s = "enter" ∨ s = "up" ∨ s = "left"
        ∨ s = "right" ∨ s = "down" then
      if s = "enter" ∧ m.focusIndex = (m.inputs.length : Int) then
        ((m, Cmd.Quit), fs)
      else
        let focusIndex :=
          if s = "up" ∨ s = "shift+tab" ∨ s = "left" then m.focusIndex - 1
          else m.focusIndex + 1
        let focusIndex :=
          if focusIndex > (m.inputs.length : Int) + 1 then 0
          else if focusIndex < 0 then (m.inputs.length : Int)
          else focusIndex
        let r := focusLoop focusIndex 0 m.inputs
        (({ m with focusIndex := focusIndex, inputs := r.1 }, Cmd.Batch r.2), fs)
    else
      (m.updateInputs tiUpdate msg, fs)
  | _ => (m.updateInputs tiUpdate msg, fs)

/-- A text-field edit function for the examples: a focused field appends the
key's text while the value is shorter than its limit, any other field ignores
the message. -/
def appendKey (t : TextInput) (msg : Msg) : TextInput × Cmd :=
  match msg with
  | Msg.KeyMsg s =>
    if t.focus ∧ ((t.value.length : Int) < t.CharLimit ∨ t.CharLimit ≤ 0) then
      ({ t with value := t.value ++ s }, Cmd.nil)
    else (t, Cmd.nil)
  | _ => (t, Cmd.nil)

/-- Repeated application of `model.Update`: the model and the file that result
from handling the messages in order, each on the model returned for the one
before. -/
def feed (tiUpdate : TextInput → Msg → TextInput × Cmd) :
    List Msg → model → FS → model × FS
  | [], m, fs => (m, fs)
  | msg :: rest, m, fs =>
    let r := model.Update tiUpdate m msg fs
    feed tiUpdate rest r.1.1 r.2

/-- The event loop of the program (`tea.NewProgram(initialModel()).Run()`): each
message is handed to `Update`.  A quit command does not end the loop at once:
the messages that are already queued when it is returned, `queued` of them,
are still handed to `Update` before the quit message arrives and the loop
ends. -/
def run (tiUpdate : TextInput → Msg → TextInput × Cmd) (queued : Nat) :
    List Msg → model → FS → model × FS
  | [], m, fs => (m, fs)
  | msg :: rest, m, fs =>
    let r := model.Update tiUpdate m msg fs
    if r.1.2.isQuit then feed tiUpdate (rest.take queued) r.1.1 r.2
    else run tiUpdate queued rest r.1.1 r.2

/-! ## Concrete data for the examples -/

/-- A task with the title of the scenario and every other field at its zero
value. -/
def fixPrinter : Task := { Title := "Fix printer" }

/-- A second task, with three fields set. -/
def orderToner : Task := { Title := "Order toner", Urgency := "low", Status := "pending" }

/-- A task that is due on January 1 of year 10000, 00:00:00 UTC: 3652059 days
after January 1 of year 1. -/
def lateTask : Task := { Title := "Archive", Due := { ext := 3652059 * 86400 } }

/-- The part of a JSON object that `encoding/json` writes for the six fields of a
task after `status`, all at their zero value. -/
def zeroTail : String :=
  "\"assigned_by\":\"\",\"attachments\":null,\"comments\":null," ++
  "\"timestamp\":\"0001-01-01T00:00:00Z\",\"starttime\":\"0001-01-01T00:00:00Z\"," ++
  "\"endtime\":\"0001-01-01T00:00:00Z\",\"due\":\"0001-01-01T00:00:00Z\"\x7d"

/-- The JSON object `encoding/json` writes for `fixPrinter`. -/
def fixPrinterObject : String :=
  "\x7b\"title\":\"Fix printer\",\"description\":\"\",\"urgency\":\"\",\"status\":\"\"," ++
  zeroTail

/-- The JSON object `encoding/json` writes for `orderToner`. -/
def orderTonerObject : String :=
  "\x7b\"title\":\"Order toner\",\"description\":\"\",\"urgency\":\"low\"," ++
  "\"status\":\"pending\"," ++ zeroTail

/-- The JSON text `encoding/json` writes for the one-element collection holding
`fixPrinter`. -/
def fixPrinterJSON : String :=
  "[" ++ fixPrinterObject ++ "]"

/-- The JSON text `encoding/json` writes for the collection holding `fixPrinter`
and then `orderToner`. -/
def twoTasksJSON : String :=
  "[" ++ fixPrinterObject ++ "," ++ orderTonerObject ++ "]"

/-- The year of the time lies in 0 to 9999, the range outside of which
`Time.MarshalJSON` of the Go library reports an error: year 0 starts 366 days
before January 1 of year 1, and year 10000 starts 3652059 days after it. -/
def Time.yearInRange (t : Time) : Bool :=
  decide (-(366 * 86400) ≤ t.ext ∧ t.ext < 3652059 * 86400)

/-- Every time of the task, if there is a task, has its year in 0 to 9999. -/
def timesInRange : Option Task → Bool
  | none => true
  | some t =>
    t.TimeStamp.yearInRange && t.StartTime.yearInRange && t.EndTime.yearInRange
      && t.Due.yearInRange

/-- A finite part of `encoding/json` at type `[]*Task`.  `Marshal` reports the
error of `Time.MarshalJSON` for a collection with a time outside the years 0
to 9999; apart from that the part holds the empty array, the array holding one
null, the array holding `fixPrinter`, and the array holding `fixPrinter` and
`orderToner`.  What lies outside this part is reported as an error that says
so. -/
def jsonFragment : Codec where
  Marshal ts :=
    if ts.all timesInRange = false then
      Except.error (Error.encode "Time.MarshalJSON: year outside of range [0,9999]")
    else if ts = [] then Except.ok "[]"
    else if ts = [none] then Except.ok "[null]"
    else if ts = [some fixPrinter] then Except.ok fixPrinterJSON
    else if ts = [some fixPrinter, some orderToner] then Except.ok twoTasksJSON
    else Except.error (Error.encode "outside the fragment")
  Unmarshal b :=
    if b = "[]" then Except.ok []
    else if b = "[null]" then Except.ok [none]
    else if b = fixPrinterJSON then Except.ok [some fixPrinter]
    else if b = twoTasksJSON then Except.ok [some fixPrinter, some orderToner]
    else Except.error (Error.decode "outside the fragment")

/-- The form after the title has been typed and the focus moved to Submit. -/
def onSubmit : model :=
  (feed appendKey
    ([Msg.KeyMsg "Fix", Msg.KeyMsg " ", Msg.KeyMsg "printer"]
      ++ List.replicate 6 (Msg.KeyMsg "tab"))
    initialModel { file := some "" }).1

/-- The form after seven presses of tab: the focus is on Cancel. -/
def onCancel : model :=
  (feed appendKey (List.replicate 7 (Msg.KeyMsg "tab")) initialModel { file := none }).1


/-! ## Lemmas on `createTask` -/

/-- A usable path lies in an existing directory. -/
theorem usable_dir (fs : FS) (hu : fs.usable = true) : fs.dir = true := by
  obtain ⟨file, dir, dw, r, w⟩ := fs
  cases dir <;> simp_all [FS.usable, FS.contents]

/-- When a file operation cannot succeed, `createTask` ends in `log.Fatal` and
the state of the path is unchanged. -/
theorem createTask_unusable (json : Codec) (task : Option Task) (fs : FS)
    (hu : fs.usable = false) :
    (createTask json task fs).2 = fs ∧ ∃ err, (createTask json task fs).1 = Outcome.fatal err := by
  obtain ⟨file, dir, dw, r, w⟩ := fs
  cases dir
  · simp [createTask, osStat, osIsNotExist, osCreate, osReadFile, FS.contents]
  · cases file with
    | none =>
      have hdw : dw = false := by simpa [FS.usable, FS.contents] using hu
      subst hdw
      simp [createTask, osStat, osIsNotExist, osCreate, osReadFile, FS.contents]
    | some b =>
      cases r
      · simp [createTask, osStat, osIsNotExist, osReadFile, FS.contents]
      · have hw : w = false := by simpa [FS.usable, FS.contents] using hu
        subst hw
        simp only [createTask, osStat, osIsNotExist, osReadFile, FS.contents, if_true]
        repeat' split
        all_goals first | exact ⟨rfl, _, rfl⟩ | simp_all [osWriteFile]

/-- On a usable path whose file decodes to `prior`, a successful `json.Marshal`
makes `createTask` return with the file holding the text. -/
theorem createTask_returns (json : Codec) (task : Option Task) (fs : FS) (prior : Tasks)
    (data : String) (hu : fs.usable = true) (hprior : decodeFile json fs = Except.ok prior)
    (hm : json.Marshal (prior ++ [task]) = Except.ok data) :
    createTask json task fs =
      (Outcome.returned, { fs with file := some data, readable := true, writable := true }) := by
  obtain ⟨file, dir, dw, r, w⟩ := fs
  have hdir : dir = true := usable_dir _ hu
  subst hdir
  cases file with
  | none =>
    have hdw : dw = true := by simpa [FS.usable, FS.contents] using hu
    subst hdw
    have hp : prior = [] := by
      simp [decodeFile, FS.contents] at hprior
      exact hprior
    subst hp
    simp at hm
    simp [createTask, osStat, osIsNotExist, osCreate, osReadFile, osWriteFile, FS.contents, hm]
  | some b =>
    have hrw : r = true ∧ w = true := by simpa [FS.usable, FS.contents] using hu
    obtain ⟨hr, hw⟩ := hrw
    subst hr
    subst hw
    by_cases hb : b.length ≠ 0
    · have hp : json.Unmarshal b = Except.ok prior := by
        simpa [decodeFile, FS.contents, hb] using hprior
      simp [createTask, osStat, osIsNotExist, osReadFile, osWriteFile, FS.contents, hb, hp, hm]
    · have hp : prior = [] := by
        simp [decodeFile, FS.contents, hb] at hprior
        exact hprior
      subst hp
      simp at hm
      simp [createTask, osStat, osIsNotExist, osReadFile, osWriteFile, FS.contents, hb, hm]

/-- On a usable path whose file decodes to `prior`, an error of `json.Marshal`
makes `createTask` end in `log.Fatal` with it, and the file still decodes to
`prior`. -/
theorem createTask_marshal_error (json : Codec) (task : Option Task) (fs : FS) (prior : Tasks)
    (err : Error) (hu : fs.usable = true) (hprior : decodeFile json fs = Except.ok prior)
    (hm : json.Marshal (prior ++ [task]) = Except.error err) :
    (createTask json task fs).1 = Outcome.fatal err ∧
    decodeFile json (createTask json task fs).2 = Except.ok prior := by
  obtain ⟨file, dir, dw, r, w⟩ := fs
  have hdir : dir = true := usable_dir _ hu
  subst hdir
  cases file with
  | none =>
    have hdw : dw = true := by simpa [FS.usable, FS.contents] using hu
    subst hdw
    have hp : prior = [] := by
      simp [decodeFile, FS.contents] at hprior
      exact hprior
    subst hp
    simp at hm
    simp [createTask, osStat, osIsNotExist, osCreate, osReadFile, FS.contents, hm, decodeFile]
  | some b =>
    have hrw : r = true ∧ w = true := by simpa [FS.usable, FS.contents] using hu
    obtain ⟨hr, hw⟩ := hrw
    subst hr
    subst hw
    by_cases hb : b.length ≠ 0
    · have hp : json.Unmarshal b = Except.ok prior := by
        simpa [decodeFile, FS.contents, hb] using hprior
      simp [createTask, osStat, osIsNotExist, osReadFile, FS.contents, hb, hp, hm, decodeFile]
    · have hp : prior = [] := by
        simp [decodeFile, FS.contents, hb] at hprior
        exact hprior
      subst hp
      simp at hm
      simp [createTask, osStat, osIsNotExist, osReadFile, FS.contents, hb, hm, decodeFile]

/-! ## Lemmas on the loops -/

theorem focusLoop_length (f : Int) (ts : List TextInput) (i : Nat) :
    (focusLoop f i ts).1.length = ts.length := by
  induction ts generalizing i with
  | nil => rfl
  | cons t ts ih =>
    unfold focusLoop
    by_cases h : (i : Int) = f <;> simp [h, ih]

theorem setModeLoop_length (mode : Int) (ts : List TextInput) :
    (setModeLoop mode ts).1.length = ts.length := by
  induction ts with
  | nil => rfl
  | cons t ts ih => simp [setModeLoop, ih]

theorem focusLoop_value (f : Int) (ts : List TextInput) (i : Nat) :
    (focusLoop f i ts).1.map (fun t => t.value) = ts.map (fun t => t.value) := by
  induction ts generalizing i with
  | nil => rfl
  | cons t ts ih =>
    unfold focusLoop
    by_cases h : (i : Int) = f <;> simp [h, ih, TextInput.Focus, TextInput.Blur]

theorem focusLoop_getElem? (f : Int) (ts : List TextInput) (i j : Nat) :
    (focusLoop f i ts).1[j]? = (ts[j]?).map (fun t =>
      if ((i + j : Nat) : Int) = f then
        { t.Focus.1 with PromptStyle := focusedStyle, TextStyle := focusedStyle }
      else { t.Blur with PromptStyle := noStyle, TextStyle := noStyle }) := by
  induction ts generalizing i j with
  | nil => simp [focusLoop]
  | cons t ts ih =>
    unfold focusLoop
    cases j with
    | zero => by_cases h : (i : Int) = f <;> simp [h]
    | succ j =>
      have e : i + (j + 1) = i + 1 + j := by omega
      by_cases h : (i : Int) = f <;> simp [h, ih, e]

theorem focusLoop_countP (f : Int) (ts : List TextInput) (i : Nat) :
    (focusLoop f i ts).1.countP (fun t => t.focus) =
      if (i : Int) ≤ f ∧ f < (i : Int) + (ts.length : Int) then 1 else 0 := by
  induction ts generalizing i with
  | nil =>
    have h0 : ¬ ((i : Int) ≤ f ∧ f < (i : Int) + ((([] : List TextInput).length : Nat) : Int)) := by
      simp
    rw [if_neg h0]
    simp [focusLoop]
  | cons t ts ih =>
    unfold focusLoop
    by_cases h : (i : Int) = f
    · have h1 : ¬ (((i + 1 : Nat) : Int) ≤ f ∧ f < ((i + 1 : Nat) : Int) + (ts.length : Int)) := by
        push_cast; omega
      have h2 : (i : Int) ≤ f ∧ f < (i : Int) + (((t :: ts).length : Nat) : Int) := by
        simp; omega
      simp only [h, if_true] at *
      rw [List.countP_cons, ih (i + 1), if_neg h1, if_pos h2]
      simp [TextInput.Focus]
    · simp only [h, if_false]
      rw [List.countP_cons, ih (i + 1)]
      have e : (((i + 1 : Nat) : Int) ≤ f ∧ f < ((i + 1 : Nat) : Int) + (ts.length : Int)) ↔
          ((i : Int) ≤ f ∧ f < (i : Int) + (((t :: ts).length : Nat) : Int)) := by
        simp; omega
      simp only [e]
      simp [TextInput.Blur]

/-! ## Lemmas on `model.Update` -/

theorem Update_fs (ti : TextInput → Msg → TextInput × Cmd) (m : model) (msg : Msg) (fs : FS) :
    (model.Update ti m msg fs).2 = fs := by
  unfold model.Update
  split
  · split_ifs <;> rfl
  · rfl

theorem Update_length (ti : TextInput → Msg → TextInput × Cmd) (m : model) (msg : Msg)
    (fs : FS) : (model.Update ti m msg fs).1.1.inputs.length = m.inputs.length := by
  unfold model.Update
  split
  · split_ifs <;> simp [focusLoop_length, setModeLoop_length, model.updateInputs]
  · simp [model.updateInputs]

/-- A navigation key that does not commit moves the focus index to some slot of
the ring and runs the focus loop for that slot. -/
theorem Update_nav (ti : TextInput → Msg → TextInput × Cmd) (m : model) (s : String) (fs : FS)
    (hs : s = "tab" ∨ s = "shift+tab" ∨ s = "up" ∨ s = "down" ∨ s = "left" ∨ s = "right"
      ∨ (s = "enter" ∧ m.focusIndex ≠ (m.inputs.length : Int))) :
    ∃ fi : Int, 0 ≤ fi ∧ fi ≤ (m.inputs.length : Int) + 1 ∧
      model.Update ti m (Msg.KeyMsg s) fs =
        (({ m with focusIndex := fi, inputs := (focusLoop fi 0 m.inputs).1 },
          Cmd.Batch (focusLoop fi 0 m.inputs).2), fs) := by
  have hnext : ∃ fi : Int, 0 ≤ fi ∧ fi ≤ (m.inputs.length : Int) + 1 ∧
      fi = (if m.focusIndex + 1 > (m.inputs.length : Int) + 1 then 0
        else if m.focusIndex + 1 < 0 then (m.inputs.length : Int) else m.focusIndex + 1) := by
    refine ⟨_, ?_, ?_, rfl⟩ <;> split_ifs <;> omega
  have hprev : ∃ fi : Int, 0 ≤ fi ∧ fi ≤ (m.inputs.length : Int) + 1 ∧
      fi = (if m.focusIndex - 1 > (m.inputs.length : Int) + 1 then 0
        else if m.focusIndex - 1 < 0 then (m.inputs.length : Int) else m.focusIndex - 1) := by
    refine ⟨_, ?_, ?_, rfl⟩ <;> split_ifs <;> omega
  rcases hs with rfl | rfl | rfl | rfl | rfl | rfl | ⟨rfl, hne⟩
  · obtain ⟨fi, h0, h1, e⟩ := hnext
    exact ⟨fi, h0, h1, by rw [e]; simp [model.Update]⟩
  · obtain ⟨fi, h0, h1, e⟩ := hprev
    exact ⟨fi, h0, h1, by rw [e]; simp [model.Update]⟩
  · obtain ⟨fi, h0, h1, e⟩ := hprev
    exact ⟨fi, h0, h1, by rw [e]; simp [model.Update]⟩
  · obtain ⟨fi, h0, h1, e⟩ := hnext
    exact ⟨fi, h0, h1, by rw [e]; simp [model.Update]⟩
  · obtain ⟨fi, h0, h1, e⟩ := hprev
    exact ⟨fi, h0, h1, by rw [e]; simp [model.Update]⟩
  · obtain ⟨fi, h0, h1, e⟩ := hnext
    exact ⟨fi, h0, h1, by rw [e]; simp [model.Update]⟩
  · obtain ⟨fi, h0, h1, e⟩ := hnext
    exact ⟨fi, h0, h1, by rw [e]; simp [model.Update, hne]⟩

/-- The focus index after a key of the `next` group. -/
theorem Update_next_focusIndex (ti : TextInput → Msg → TextInput × Cmd) (m : model)
    (s : String) (fs : FS) (hs : s = "tab" ∨ s = "down" ∨ s = "right") :
    (model.Update ti m (Msg.KeyMsg s) fs).1.1.focusIndex =
      if m.focusIndex + 1 > (m.inputs.length : Int) + 1 then 0
      else if m.focusIndex + 1 < 0 then (m.inputs.length : Int) else m.focusIndex + 1 := by
  rcases hs with rfl | rfl | rfl <;> simp [model.Update]

/-- Feeding `k` keys of the `next` group, `k` at most the size of the ring, moves
the focus index `k` slots forward around the ring. -/
theorem feed_next (ti : TextInput → Msg → TextInput × Cmd) (keys : List String) :
    ∀ (m : model) (fs : FS), 0 ≤ m.focusIndex → m.focusIndex ≤ (m.inputs.length : Int) + 1 →
      (keys.length : Int) ≤ (m.inputs.length : Int) + 2 →
      (∀ k ∈ keys, k = "tab" ∨ k = "down" ∨ k = "right") →
      (feed ti (keys.map Msg.KeyMsg) m fs).1.focusIndex =
        if m.focusIndex + (keys.length : Int) ≤ (m.inputs.length : Int) + 1
        then m.focusIndex + (keys.length : Int)
        else m.focusIndex + (keys.length : Int) - ((m.inputs.length : Int) + 2) := by
  induction keys with
  | nil => intro m fs h0 h1 _ _; simp [feed]; omega
  | cons s rest ih =>
    intro m fs h0 h1 hlen hall
    have hs := hall s (List.mem_cons_self s rest)
    have hrest : ∀ k ∈ rest, k = "tab" ∨ k = "down" ∨ k = "right" :=
      fun k hk => hall k (List.mem_cons_of_mem s hk)
    have hf := Update_next_focusIndex ti m s fs hs
    have hl := Update_length ti m (Msg.KeyMsg s) fs
    simp only [List.map_cons, feed, List.length_cons] at hlen ⊢
    have hlen2 : (rest.length : Int) ≤ (m.inputs.length : Int) + 1 := by push_cast at hlen; omega
    rw [ih (model.Update ti m (Msg.KeyMsg s) fs).1.1 (model.Update ti m (Msg.KeyMsg s) fs).2
      (by rw [hf]; split_ifs <;> omega) (by rw [hf, hl]; split_ifs <;> omega)
      (by rw [hl]; omega) hrest]
    rw [hf, hl]
    push_cast
    split_ifs <;> omega


/-- The cursor mode after the key ctrl+r. -/
theorem Update_ctrlR_cursorMode (ti : TextInput → Msg → TextInput × Cmd) (m : model) (fs : FS) :
    (model.Update ti m (Msg.KeyMsg "ctrl+r") fs).1.1.cursorMode =
      if m.cursorMode + 1 > CursorHide then CursorBlink else m.cursorMode + 1 := by
  simp [model.Update]

/-- The result of the key enter away from the Submit slot. -/
theorem Update_enter_off_submit (ti : TextInput → Msg → TextInput × Cmd) (m : model) (fs : FS)
    (h : m.focusIndex ≠ (m.inputs.length : Int)) :
    model.Update ti m (Msg.KeyMsg "enter") fs =
      (({ m with
          focusIndex := if m.focusIndex + 1 > (m.inputs.length : Int) + 1 then 0
            else if m.focusIndex + 1 < 0 then (m.inputs.length : Int) else m.focusIndex + 1,
          inputs := (focusLoop (if m.focusIndex + 1 > (m.inputs.length : Int) + 1 then 0
            else if m.focusIndex + 1 < 0 then (m.inputs.length : Int)
            else m.focusIndex + 1) 0 m.inputs).1 },
        Cmd.Batch (focusLoop (if m.focusIndex + 1 > (m.inputs.length : Int) + 1 then 0
            else if m.focusIndex + 1 < 0 then (m.inputs.length : Int)
            else m.focusIndex + 1) 0 m.inputs).2), fs) := by
  simp [model.Update, h]

/-! ## The claims -/

/-- C3: from a focus index inside the ring `[0, N+1]`, any `N+2` keys of the
`next` group (tab, down, right) bring the focus index back to where it
started. -/
theorem next_full_cycle (ti : TextInput → Msg → TextInput × Cmd) (m : model)
    (keys : List String) (fs : FS)
    (hlo : 0 ≤ m.focusIndex) (hhi : m.focusIndex ≤ (m.inputs.length : Int) + 1)
    (hlen : keys.length = m.inputs.length + 2)
    (hkeys : ∀ k ∈ keys, k = "tab" ∨ k = "down" ∨ k = "right") :
    (feed ti (keys.map Msg.KeyMsg) m fs).1.focusIndex = m.focusIndex := by
  rw [feed_next ti keys m fs hlo hhi (by rw [hlen]; push_cast; omega) hkeys, hlen]
  push_cast
  split_ifs <;> omega

theorem next_full_cycle_witness :
    (feed appendKey
      (["tab", "down", "right", "tab", "tab", "down", "right", "tab"].map Msg.KeyMsg)
      initialModel { file := none }).1.focusIndex = initialModel.focusIndex :=
  next_full_cycle appendKey initialModel
    ["tab", "down", "right", "tab", "tab", "down", "right", "tab"] { file := none }
    (by decide) (by decide) (by decide) (by decide)

/-- C4: from focus index 0, a key of the `previous` group (shift+tab, up, left)
puts the focus index on `N = len(inputs)`, the Submit slot, and not on `N+1`,
the Cancel slot. -/
theorem previous_from_zero_lands_on_submit (ti : TextInput → Msg → TextInput × Cmd)
    (m : model) (s : String) (fs : FS) (h0 : m.focusIndex = 0)
    (hs : s = "shift+tab" ∨ s = "up" ∨ s = "left") :
    (model.Update ti m (Msg.KeyMsg s) fs).1.1.focusIndex = (m.inputs.length : Int) ∧
    (model.Update ti m (Msg.KeyMsg s) fs).1.1.focusIndex ≠ (m.inputs.length : Int) + 1 := by
  have e : (model.Update ti m (Msg.KeyMsg s) fs).1.1.focusIndex = (m.inputs.length : Int) := by
    rcases hs with rfl | rfl | rfl <;> simp [model.Update, h0] <;> omega
  exact ⟨e, by rw [e]; omega⟩

theorem previous_from_zero_lands_on_submit_witness :
    (model.Update appendKey initialModel (Msg.KeyMsg "up") { file := none }).1.1.focusIndex
        = (initialModel.inputs.length : Int) ∧
    (model.Update appendKey initialModel (Msg.KeyMsg "up") { file := none }).1.1.focusIndex
        ≠ (initialModel.inputs.length : Int) + 1 :=
  previous_from_zero_lands_on_submit appendKey initialModel "up" { file := none }
    (by decide) (by decide)

/-- C5: the focus index is 0 in `initialModel`, and `model.Update` keeps it inside
`[0, len(inputs)+1]` for every message: navigation keys, enter, ctrl+r, the quit
keys, any other key and any message that is not a key. -/
theorem focusIndex_invariant :
    initialModel.focusIndex = 0 ∧
    ∀ (ti : TextInput → Msg → TextInput × Cmd) (m : model) (msg : Msg) (fs : FS),
      0 ≤ m.focusIndex → m.focusIndex ≤ (m.inputs.length : Int) + 1 →
      0 ≤ (model.Update ti m msg fs).1.1.focusIndex ∧
      (model.Update ti m msg fs).1.1.focusIndex
        ≤ ((model.Update ti m msg fs).1.1.inputs.length : Int) + 1 := by
  refine ⟨rfl, ?_⟩
  intro ti m msg fs hlo hhi
  rw [Update_length]
  unfold model.Update
  split
  · split_ifs <;> simp [model.updateInputs] <;> (try split_ifs) <;> omega
  · simp [model.updateInputs]; omega

theorem focusIndex_invariant_witness :
    0 ≤ (model.Update appendKey onCancel (Msg.KeyMsg "tab") { file := none }).1.1.focusIndex ∧
    (model.Update appendKey onCancel (Msg.KeyMsg "tab") { file := none }).1.1.focusIndex
      ≤ ((model.Update appendKey onCancel (Msg.KeyMsg "tab")
          { file := none }).1.1.inputs.length : Int) + 1 :=
  focusIndex_invariant.2 appendKey onCancel (Msg.KeyMsg "tab") { file := none }
    (by decide) (by decide)

/-- C8: for each of the three cursor modes, one ctrl+r moves Blink to Static,
Static to Hidden and Hidden to Blink, and three of them in a row give back the
mode the model started with. -/
theorem cursorMode_cycle (ti : TextInput → Msg → TextInput × Cmd) (m : model) (fs : FS)
    (hmode : m.cursorMode = CursorBlink ∨ m.cursorMode = CursorStatic
      ∨ m.cursorMode = CursorHide) :
    (model.Update ti
      (model.Update ti
        (model.Update ti m (Msg.KeyMsg "ctrl+r") fs).1.1
        (Msg.KeyMsg "ctrl+r") fs).1.1
      (Msg.KeyMsg "ctrl+r") fs).1.1.cursorMode = m.cursorMode ∧
    (m.cursorMode = CursorBlink →
      (model.Update ti m (Msg.KeyMsg "ctrl+r") fs).1.1.cursorMode = CursorStatic) ∧
    (m.cursorMode = CursorStatic →
      (model.Update ti m (Msg.KeyMsg "ctrl+r") fs).1.1.cursorMode = CursorHide) ∧
    (m.cursorMode = CursorHide →
      (model.Update ti m (Msg.KeyMsg "ctrl+r") fs).1.1.cursorMode = CursorBlink) := by
  simp only [Update_ctrlR_cursorMode, CursorBlink, CursorStatic, CursorHide] at hmode ⊢
  refine ⟨?_, ?_, ?_, ?_⟩
  · rcases hmode with h | h | h <;> rw [h] <;> decide
  · intro h; rw [h]; decide
  · intro h; rw [h]; decide
  · intro h; rw [h]; decide

theorem cursorMode_cycle_witness :
    (model.Update appendKey
      (model.Update appendKey
        (model.Update appendKey initialModel (Msg.KeyMsg "ctrl+r") { file := none }).1.1
        (Msg.KeyMsg "ctrl+r") { file := none }).1.1
      (Msg.KeyMsg "ctrl+r") { file := none }).1.1.cursorMode = initialModel.cursorMode :=
  (cursorMode_cycle appendKey initialModel { file := none } (by decide)).1

/-- C9: on esc and on ctrl+c `model.Update` returns the quit command with the
model as it was, and the task file, whatever its state (absent included), is
the same after the call as before; no task is built and the store is not
called. -/
theorem quit_keys_leave_file (ti : TextInput → Msg → TextInput × Cmd) (m : model) (fs : FS) :
    model.Update ti m (Msg.KeyMsg "esc") fs = ((m, Cmd.Quit), fs) ∧
    model.Update ti m (Msg.KeyMsg "ctrl+c") fs = ((m, Cmd.Quit), fs) := by
  constructor <;> simp [model.Update]


/-- C1, as stated, fails: with "Fix printer" typed in the first field, the focus on
Submit and an empty task file, enter returns the quit command and the task file
is still empty afterwards; it holds no array and decodes to no task.  The same
holds for the whole run of the program from `initialModel`, whether the key
queued behind that enter is still handled or not: the run ends with the file
still empty. -/
theorem enter_on_submit_stores_nothing :
    onSubmit.focusIndex = (onSubmit.inputs.length : Int) ∧
    onSubmit.inputs.map (fun t => t.value) = ["Fix printer", "", "", "", "", ""] ∧
    (model.Update appendKey onSubmit (Msg.KeyMsg "enter") { file := some "" }).1.2.isQuit
      = true ∧
    (model.Update appendKey onSubmit (Msg.KeyMsg "enter") { file := some "" }).2
      = { file := some "" } ∧
    (decodeFile jsonFragment
      (model.Update appendKey onSubmit (Msg.KeyMsg "enter") { file := some "" }).2).toOption
      = some [] ∧
    (run appendKey 0
      ([Msg.KeyMsg "Fix", Msg.KeyMsg " ", Msg.KeyMsg "printer"]
        ++ List.replicate 6 (Msg.KeyMsg "tab") ++ [Msg.KeyMsg "enter", Msg.KeyMsg "x"])
      initialModel { file := some "" }) = (onSubmit, { file := some "" }) ∧
    (run appendKey 1
      ([Msg.KeyMsg "Fix", Msg.KeyMsg " ", Msg.KeyMsg "printer"]
        ++ List.replicate 6 (Msg.KeyMsg "tab") ++ [Msg.KeyMsg "enter", Msg.KeyMsg "x"])
      initialModel { file := some "" }) = (onSubmit, { file := some "" }) := by
  refine ⟨by decide, by decide, by decide, by decide, by rfl, by decide, by decide⟩

/-- C1, amended: enter with the focus index on the Submit slot returns the quit
command and the model unchanged, and the task file is the same after the call
as before; `model.Update` builds no task and does not call `createTask`. -/
theorem enter_on_submit_quits (ti : TextInput → Msg → TextInput × Cmd) (m : model) (fs : FS)
    (h : m.focusIndex = (m.inputs.length : Int)) :
    model.Update ti m (Msg.KeyMsg "enter") fs = ((m, Cmd.Quit), fs) := by
  simp [model.Update, h]

theorem enter_on_submit_quits_witness :
    model.Update appendKey onSubmit (Msg.KeyMsg "enter") { file := some "" }
      = ((onSubmit, Cmd.Quit), { file := some "" }) :=
  enter_on_submit_quits appendKey onSubmit { file := some "" } (by decide)

set_option maxRecDepth 100000 in
/-- C2, as stated, fails.  With the directory `db` missing the task file is absent,
yet `createTask` ends in `log.Fatal` (the error of `os.Create` is dropped and
`os.ReadFile` fails) and the file is still absent, so it decodes to the empty
collection and not to the new task.  With a task file that holds one task and
may not be written, `createTask` ends in `log.Fatal` at `os.WriteFile` and the
file still holds one task.  With an empty task file and a task due in year
10000, which `json.Marshal` rejects, `createTask` ends in `log.Fatal` and the
file is still empty. -/
theorem createTask_fatal_without_append :
    decodeFile jsonFragment { file := none, dir := false } = Except.ok [] ∧
    createTask jsonFragment (some fixPrinter) { file := none, dir := false }
      = (Outcome.fatal Error.notExist, { file := none, dir := false }) ∧
    decodeFile jsonFragment
        (createTask jsonFragment (some fixPrinter) { file := none, dir := false }).2
      = Except.ok [] ∧
    decodeFile jsonFragment { file := some fixPrinterJSON, writable := false }
      = Except.ok [some fixPrinter] ∧
    createTask jsonFragment (some orderToner) { file := some fixPrinterJSON, writable := false }
      = (Outcome.fatal Error.permission, { file := some fixPrinterJSON, writable := false }) ∧
    decodeFile jsonFragment { file := some "" } = Except.ok [] ∧
    createTask jsonFragment (some lateTask) { file := some "" }
      = (Outcome.fatal (Error.encode "Time.MarshalJSON: year outside of range [0,9999]"),
          { file := some "" }) := by
  refine ⟨rfl, rfl, rfl, rfl, rfl, rfl, rfl⟩

/-- C2, amended: let the task file be absent, empty, or decode to the collection
`prior`.  When the file operations can succeed (an absent file can be created
in `db`, an existing one can be read and written) and `json.Marshal` encodes
`prior` followed by the new task, `createTask` returns and leaves the file
holding exactly that text; if `json.Unmarshal` reads the text back, the file
decodes to `prior` followed by exactly the new task: one element longer, every
prior element at its position, the new task last.  When `json.Marshal` reports
an error, `createTask` ends in `log.Fatal` with it and the file still decodes
to `prior`.  When a file operation cannot succeed, `createTask` ends in
`log.Fatal` and the state of the path is unchanged. -/
theorem createTask_appends (json : Codec) (task : Option Task) (fs : FS) (prior : Tasks)
    (hprior : decodeFile json fs = Except.ok prior) :
    (fs.usable = true →
      (∀ data, json.Marshal (prior ++ [task]) = Except.ok data →
        createTask json task fs =
          (Outcome.returned,
            { fs with file := some data, readable := true, writable := true }) ∧
        (data.length ≠ 0 → json.Unmarshal data = Except.ok (prior ++ [task]) →
          ∃ after, decodeFile json (createTask json task fs).2 = Except.ok after ∧
            after = prior ++ [task] ∧
            after.length = prior.length + 1 ∧
            (∀ i, i < prior.length → after[i]? = prior[i]?) ∧
            after[prior.length]? = some task)) ∧
      (∀ err, json.Marshal (prior ++ [task]) = Except.error err →
        (createTask json task fs).1 = Outcome.fatal err ∧
        decodeFile json (createTask json task fs).2 = Except.ok prior)) ∧
    (fs.usable = false →
      (createTask json task fs).2 = fs ∧
      ∃ err, (createTask json task fs).1 = Outcome.fatal err) := by
  refine ⟨fun hu => ⟨fun data hm => ?_, fun err hm => ?_⟩, createTask_unusable json task fs⟩
  · have hrun := createTask_returns json task fs prior data hu hprior hm
    refine ⟨hrun, fun hne hrt => ⟨prior ++ [task], ?_, rfl, by simp, ?_, by simp⟩⟩
    · have hdir := usable_dir fs hu
      rw [hrun]
      simp [decodeFile, FS.contents, hdir, hne, hrt]
    · intro i hi
      exact List.getElem?_append_left hi
  · exact createTask_marshal_error json task fs prior err hu hprior hm

set_option maxRecDepth 100000 in
theorem createTask_appends_witness :
    createTask jsonFragment (some orderToner) { file := some fixPrinterJSON }
      = (Outcome.returned, { file := some twoTasksJSON }) ∧
    ∃ after, decodeFile jsonFragment
        (createTask jsonFragment (some orderToner) { file := some fixPrinterJSON }).2
          = Except.ok after ∧
      after = [some fixPrinter] ++ [some orderToner] ∧
      after.length = [some fixPrinter].length + 1 ∧
      (∀ i, i < [some fixPrinter].length → after[i]? = [some fixPrinter][i]?) ∧
      after[[some fixPrinter].length]? = some (some orderToner) :=
  have h := ((createTask_appends jsonFragment (some orderToner) { file := some fixPrinterJSON }
    [some fixPrinter] rfl).1 rfl).1 twoTasksJSON rfl
  ⟨h.1, h.2 (by decide) rfl⟩

/-- C10: when the task file exists, is not empty, and its contents do not decode,
`createTask` ends in `log.Fatal` and the state of the path, the contents of the
file included, is the same as before; the write is not reached.  When the file
may be read, the error is the decode error. -/
theorem createTask_decode_error (json : Codec) (task : Option Task) (fs : FS) (b : String)
    (err : Error) (hfile : fs.contents = some b) (hb : b.length ≠ 0)
    (hdec : json.Unmarshal b = Except.error err) :
    (createTask json task fs).2 = fs ∧
    (∃ e, (createTask json task fs).1 = Outcome.fatal e) ∧
    (fs.readable = true → createTask json task fs = (Outcome.fatal err, fs)) := by
  have hstat : osIsNotExist (osStat fs) = false := by simp [osStat, osIsNotExist, hfile]
  by_cases hr : fs.readable = true
  · have e : createTask json task fs = (Outcome.fatal err, fs) := by
      simp [createTask, hstat, osReadFile, hfile, hr, hb, hdec]
    exact ⟨by rw [e], ⟨err, by rw [e]⟩, fun _ => e⟩
  · have e : createTask json task fs = (Outcome.fatal Error.permission, fs) := by
      simp [createTask, hstat, osReadFile, hfile, hr]
    exact ⟨by rw [e], ⟨Error.permission, by rw [e]⟩, fun h => absurd h hr⟩

theorem createTask_decode_error_witness :
    createTask jsonFragment (some fixPrinter) { file := some "not json" }
      = (Outcome.fatal (Error.decode "outside the fragment"), { file := some "not json" }) :=
  (createTask_decode_error jsonFragment (some fixPrinter) { file := some "not json" } "not json"
    (Error.decode "outside the fragment") rfl (by decide) (by rfl)).2.2 rfl


/-- C6, as stated, fails: with the focus on Cancel (index 7 of the six-field form,
no field focused) enter is not a no-op; the focus index becomes 0 and the first
field becomes focused. -/
theorem enter_on_cancel_moves_focus :
    onCancel.focusIndex = (onCancel.inputs.length : Int) + 1 ∧
    onCancel.inputs.map (fun t => t.focus) = [false, false, false, false, false, false] ∧
    (model.Update appendKey onCancel (Msg.KeyMsg "enter") { file := none }).1.1.focusIndex
      = 0 ∧
    (model.Update appendKey onCancel (Msg.KeyMsg "enter") { file := none }).1.1.focusIndex
      ≠ onCancel.focusIndex ∧
    (model.Update appendKey onCancel (Msg.KeyMsg "enter")
        { file := none }).1.1.inputs.map (fun t => t.focus)
      = [true, false, false, false, false, false] := by
  refine ⟨by decide, by decide, by decide, by decide, by decide⟩

/-- C6, amended: enter with the focus index on the Cancel slot does not quit and
leaves the field values, the cursor mode and the task file as they were, but it
is handled as a `next` step: the focus index wraps to 0, the first field (when
there is one) is focused and styled, and every other field is blurred. -/
theorem enter_on_cancel_wraps (ti : TextInput → Msg → TextInput × Cmd) (m : model) (fs : FS)
    (h : m.focusIndex = (m.inputs.length : Int) + 1) :
    (model.Update ti m (Msg.KeyMsg "enter") fs).1.2.isQuit = false ∧
    (model.Update ti m (Msg.KeyMsg "enter") fs).2 = fs ∧
    (model.Update ti m (Msg.KeyMsg "enter") fs).1.1.focusIndex = 0 ∧
    (model.Update ti m (Msg.KeyMsg "enter") fs).1.1.cursorMode = m.cursorMode ∧
    (model.Update ti m (Msg.KeyMsg "enter") fs).1.1.inputs.map (fun t => t.value)
      = m.inputs.map (fun t => t.value) ∧
    (model.Update ti m (Msg.KeyMsg "enter") fs).1.1.inputs.length = m.inputs.length ∧
    ∀ (j : Nat) (t : TextInput),
      (model.Update ti m (Msg.KeyMsg "enter") fs).1.1.inputs[j]? = some t →
      (j = 0 → t.focus = true ∧ t.PromptStyle = focusedStyle ∧ t.TextStyle = focusedStyle) ∧
      (j ≠ 0 → t.focus = false ∧ t.PromptStyle = noStyle ∧ t.TextStyle = noStyle) := by
  have hne : m.focusIndex ≠ (m.inputs.length : Int) := by omega
  have hfi : (if m.focusIndex + 1 > (m.inputs.length : Int) + 1 then (0 : Int)
      else if m.focusIndex + 1 < 0 then (m.inputs.length : Int) else m.focusIndex + 1) = 0 := by
    rw [if_pos (by omega)]
  rw [Update_enter_off_submit ti m fs hne, hfi]
  refine ⟨rfl, rfl, rfl, rfl, focusLoop_value 0 m.inputs 0, focusLoop_length 0 m.inputs 0, ?_⟩
  intro j t hj
  simp only [focusLoop_getElem?] at hj
  cases hm : m.inputs[j]? with
  | none => simp [hm] at hj
  | some u =>
    simp only [hm, Option.map_some', Option.some.injEq] at hj
    subst hj
    constructor
    · intro hj0
      subst hj0
      simp [TextInput.Focus]
    · intro hj0
      simp [hj0, TextInput.Blur]

theorem enter_on_cancel_wraps_witness :
    (model.Update appendKey onCancel (Msg.KeyMsg "enter") { file := none }).1.1.focusIndex
      = 0 :=
  (enter_on_cancel_wraps appendKey onCancel { file := none } (by decide)).2.2.1

/-- C7, as stated, fails: after five presses of tab the focus is on the last field;
one more tab is a navigation event from a focus index inside the ring, and after
it the focus is on Submit and not one input field is focused. -/
theorem navigation_to_submit_focuses_no_field :
    0 ≤ (feed appendKey (List.replicate 5 (Msg.KeyMsg "tab")) initialModel
          { file := none }).1.focusIndex ∧
    (feed appendKey (List.replicate 5 (Msg.KeyMsg "tab")) initialModel
          { file := none }).1.focusIndex ≤ 6 + 1 ∧
    (model.Update appendKey
        (feed appendKey (List.replicate 5 (Msg.KeyMsg "tab")) initialModel { file := none }).1
        (Msg.KeyMsg "tab") { file := none }).1.1.focusIndex = 6 ∧
    (model.Update appendKey
        (feed appendKey (List.replicate 5 (Msg.KeyMsg "tab")) initialModel { file := none }).1
        (Msg.KeyMsg "tab") { file := none }).1.1.inputs.countP (fun t => t.focus) = 0 := by
  refine ⟨by decide, by decide, by decide, by decide⟩

/-- C7, amended: after a navigation event (tab, shift+tab, up, down, left, right,
or enter off the Submit slot) the input field at the new focus index, if the new
focus index is a field index, is focused with the focused style, and every other
input field is blurred with the neutral style; so one field is focused when the
new focus index is below `len(inputs)` and none when it is Submit or Cancel. -/
theorem navigation_focus_flags (ti : TextInput → Msg → TextInput × Cmd) (m : model)
    (s : String) (fs : FS)
    (hs : s = "tab" ∨ s = "shift+tab" ∨ s = "up" ∨ s = "down" ∨ s = "left" ∨ s = "right"
      ∨ (s = "enter" ∧ m.focusIndex ≠ (m.inputs.length : Int))) :
    (model.Update ti m (Msg.KeyMsg s) fs).1.1.inputs.length = m.inputs.length ∧
    (∀ (j : Nat) (t : TextInput),
      (model.Update ti m (Msg.KeyMsg s) fs).1.1.inputs[j]? = some t →
      ((j : Int) = (model.Update ti m (Msg.KeyMsg s) fs).1.1.focusIndex →
        t.focus = true ∧ t.PromptStyle = focusedStyle ∧ t.TextStyle = focusedStyle) ∧
      ((j : Int) ≠ (model.Update ti m (Msg.KeyMsg s) fs).1.1.focusIndex →
        t.focus = false ∧ t.PromptStyle = noStyle ∧ t.TextStyle = noStyle)) ∧
    (model.Update ti m (Msg.KeyMsg s) fs).1.1.inputs.countP (fun t => t.focus) =
      if (model.Update ti m (Msg.KeyMsg s) fs).1.1.focusIndex < (m.inputs.length : Int)
      then 1 else 0 := by
  obtain ⟨fi, h0, _, e⟩ := Update_nav ti m s fs hs
  rw [e]
  refine ⟨focusLoop_length fi m.inputs 0, ?_, ?_⟩
  · intro j t hj
    simp only [focusLoop_getElem?] at hj
    cases hm : m.inputs[j]? with
    | none => simp [hm] at hj
    | some u =>
      simp only [hm, Option.map_some', Option.some.injEq] at hj
      subst hj
      constructor
      · intro hjf
        have hjf2 : (j : Int) = fi := hjf
        simp [hjf2, TextInput.Focus]
      · intro hjf
        have hjf2 : ¬ ((j : Int) = fi) := hjf
        simp [hjf2, TextInput.Blur]
  · simp only [focusLoop_countP]
    by_cases hlt : fi < (m.inputs.length : Int)
    · rw [if_pos hlt, if_pos]
      constructor
      · simpa using h0
      · simpa using hlt
    · rw [if_neg hlt, if_neg]
      intro hc
      apply hlt
      simpa using hc.2

theorem navigation_focus_flags_witness :
    (model.Update appendKey initialModel (Msg.KeyMsg "down")
        { file := none }).1.1.inputs.countP (fun t => t.focus) =
      if (model.Update appendKey initialModel (Msg.KeyMsg "down") { file := none }).1.1.focusIndex
        < (initialModel.inputs.length : Int)
      then 1 else 0 :=
  (navigation_focus_flags appendKey initialModel "down" { file := none } (by decide)).2.2


end LmbPad
